import Mathlib

set_option maxHeartbeats 1000000

/-!
Verification of the dbgen core against its specification.

The development shallowly embeds the parts of the code base that the
checked properties are about:

* `RunGen` — the generator runtime `dbgen/core/model/run_gen.py`
  (flag initialisation, sequential row processing, error handling and
  the final statistics update).
* further namespaces follow for the entity metaclass, the generator
  graph and the serialization layer.

Machine floats (`time()` differences) are modelled as rationals; the
Python `round` builtin is modelled as round-half-to-even on `ℚ`.
-/

namespace RunGen

/-- The slice of a `Gen` object that `run_gen` reads when initialising
its local variables (lines 51-69 of `run_gen.py`): its name and tags. -/
structure Gen where
  name : String
  tags : List String
deriving DecidableEq, Repr

/-- Line 54 of `run_gen.py`: `retry_ = retry or ('io' in gen.tags)`. -/
def retry_flag (gen : Gen) (retry : Bool) : Bool :=
  retry || gen.tags.contains "io"

/-- Line 57 of `run_gen.py`:
`parallel = (not serial) and ('parallel' in gen.tags)`.  Note that the
`io` tag plays no role here. -/
def parallel_flag (gen : Gen) (serial : Bool) : Bool :=
  (!serial) && gen.tags.contains "parallel"

/-- Outcome of `apply_and_act` on a single input row: the pyblocks and
actions either all succeed, or raise an `ExternalError`, or raise some
other exception. -/
inductive RowOutcome
  | ok
  | externalError (msg : String)
  | otherError (msg : String)
deriving DecidableEq, Repr

/-- The exception that escapes the row loop, when one does. -/
inductive RowErr
  | external (msg : String)
  | other (msg : String)
deriving DecidableEq, Repr

/-- Observable result of one `run_gen` call: the status and error text
written to the `gens` meta table, the function's return code (`none`
when an exception propagates out of `run_gen`), the `uid`s inserted
into the `repeats` table, and the message of an uncaught exception. -/
structure RunResult where
  status : Option String
  error : Option String
  returnCode : Option Nat
  repeats : List String
  uncaught : Option String
deriving DecidableEq, Repr

/-- Sequential row processing (`mapper = map`, `applyfunc =
apply_serial`, lines 119-129 feeding `apply_and_act`, lines 147-165):
rows are processed in order, each successful row inserts its hash into
`repeats` (line 165), and the first exception stops the loop and
propagates into `run_gen`'s `try` block.  Returns the recorded hashes
and the escaped exception, if any. -/
def process_rows : List (String × RowOutcome) → List String × Option RowErr
  | [] => ([], none)
  | (h, .ok) :: rest =>
    let p := process_rows rest
    (h :: p.1, p.2)
  | (_, .externalError m) :: _ => ([], some (.external m))
  | (_, .otherError m) :: _ => ([], some (.other m))

/-- The error-handling skeleton of `run_gen` (lines 71-143): the whole
row loop runs inside one `try`; on success the generator row is set to
`completed` and `0` is returned; an `ExternalError` raised by any row is
caught by the single `except ExternalError` handler which records the
error text, sets status `failed` and returns `1`; any other exception
propagates out of `run_gen` with no status written by it. -/
def run_gen (rows : List (String × RowOutcome)) : RunResult :=
  match process_rows rows with
  | (rs, none) =>
    { status := some "completed", error := none, returnCode := some 0
      repeats := rs, uncaught := none }
  | (rs, some (.external m)) =>
    { status := some "failed", error := some m, returnCode := some 1
      repeats := rs, uncaught := none }
  | (rs, some (.other m)) =>
    { status := none, error := none, returnCode := none
      repeats := rs, uncaught := some m }

/-- Floor of a rational. -/
def rat_floor (x : ℚ) : ℤ := ⌊x⌋

/-- Python's `round(x, n)`: round half to even at `n` decimal digits,
modelled on `ℚ`. -/
def pyround (x : ℚ) (n : ℕ) : ℚ :=
  let y := x * (10 : ℚ) ^ n
  let f := rat_floor y
  let r := y - (f : ℚ)
  let z : ℤ :=
    if r < 1/2 then f
    else if 1/2 < r then f + 1
    else if f % 2 = 0 then f else f + 1
  (z : ℚ) / (10 : ℚ) ^ n

/-- Modelled from the spec: `dbgen.utils.numeric.safe_div` is imported
by `run_gen.py` but the module is not among the sources; per its name
and use it is division guarded against a zero denominator. -/
def safe_div (x y : ℚ) : ℚ := if y = 0 then 0 else x / y

/-- The three values stored by the `UPDATE gens SET runtime=, rate=,
n_inputs=` statement. -/
structure GenStats where
  runtime : ℚ
  rate : ℚ
  n_inputs : ℕ
deriving DecidableEq, Repr

/-- Lines 132-136 of `run_gen.py`, reached on the success path:
`tot_time = time() - start`; `rate = round(tot_time/60, 4)`;
`runtime = round(safe_div(tot_time, tot), 2)`; these values are stored
into the columns `runtime`, `rate`, `n_inputs` in that order. -/
def record_stats (tot_time : ℚ) (tot : ℕ) : GenStats :=
  { runtime := pyround (safe_div tot_time (tot : ℚ)) 2
    rate := pyround (tot_time / 60) 4
    n_inputs := tot }

/-- Concrete run for the C1 counterexample: three rows; the second one
raises an `ExternalError`. -/
def c1_rows : List (String × RowOutcome) :=
  [("h1", .ok), ("h2", .externalError "boom"), ("h3", .ok)]

end RunGen

namespace EntityCore

/-!
Embedding of the entity metaclass of `src/dbgen/core/entity.py` (the
newer code base): set-valued field inheritance (`inherit_field`,
`EntityMetaclass.__new__` lines 85-151), schema resolution and the
`BaseEntity.load` classmethod.
-/

/-- Lines 50-57 applied to a set-valued field: starting from the empty
set, walk the bases in reverse order and union in each base's value of
the field.  The bases are represented by the value each one carries for
the field in question. -/
def inherit_field (bases : List (Finset String)) : Finset String :=
  bases.reverse.foldl (fun acc b => acc ∪ b) ∅

/-- The attribute dictionary of a class being declared, as read by
`EntityMetaclass.__new__`: the three set-valued attributes (absent when
the class body does not declare them, hence `Option`), the `all_id`
metaclass kwarg, the keys of `__annotations__`, and the resulting
class's `__fields__` used by the final validation. -/
structure EntityDecl where
  identifying : Option (Finset String)
  hashexclude : Option (Finset String)
  hashinclude : Option (Finset String)
  all_id : Bool
  annotations : Finset String
  fields : Finset String
deriving DecidableEq

/-- The computed set-valued attributes of an entity class. -/
structure EntitySets where
  identifying : Finset String
  hashexclude : Finset String
  hashinclude : Finset String
deriving DecidableEq

/-- `EntityMetaclass.__new__` lines 86-100 and 140-150: for each of the
three fields, the declared value (default empty) is unioned with the
inherited union over the bases; `all_id` adds every annotated attribute
to `__identifying__` (and may not be combined with an explicit
`__identifying__`); the identifying set is appended to `_hashinclude_`;
finally every identifying name must be a field of the class. -/
def entity_new (decl : EntityDecl) (bases : List EntitySets) : Except String EntitySets :=
  let ident0 := decl.identifying.getD ∅ ∪ inherit_field (bases.map EntitySets.identifying)
  let hexc := decl.hashexclude.getD ∅ ∪ inherit_field (bases.map EntitySets.hashexclude)
  let hinc0 := decl.hashinclude.getD ∅ ∪ inherit_field (bases.map EntitySets.hashinclude)
  if decl.all_id ∧ decl.identifying ≠ none then
    Except.error "Can't supply both all_id kwarg and identifying attr"
  else
    let ident := if decl.all_id then ident0 ∪ decl.annotations else ident0
    let hinc := hinc0 ∪ ident
    if ident \ decl.fields ≠ ∅ then
      Except.error "Identifying attributes not found on class"
    else
      Except.ok { identifying := ident, hashexclude := hexc, hashinclude := hinc }

/-- Lines 50-60: `overwrite_parent` walks the bases in reverse order
and keeps overwriting with each base's value of the field
(`getattr(base, field, "")`, absent modelled as `none`, read as `""`);
the final value is therefore the first base's. -/
def overwrite_parent (bases : List (Option String)) : String :=
  bases.reverse.foldl (fun _ b => b.getD "") ""

/-- `getattr(cls, "__schema__", "")` after class creation: Python
attribute lookup finds the class's own declared value, else the first
base carrying one, else the default `""`. -/
def getattr_schema (declared : Option String) (bases : List (Option String)) : String :=
  match declared with
  | some v => v
  | none => (bases.findSome? id).getD ""

/-- Lines 123-130: `schema = getattr(cls, "__schema__", "") or
overwrite_parent(bases, "__schema__")`, then `"public"` when still
empty. -/
def resolve_schema (declared : Option String) (bases : List (Option String)) : String :=
  let s0 := getattr_schema declared bases
  let s1 := if s0 ≠ "" then s0 else overwrite_parent bases
  if s1 = "" then "public" else s1

/-- Lines 135-139: `__fulltablename__ = f"{schema}.{tablename}" if
schema else tablename`. -/
def fulltablename (schema tablename : String) : String :=
  if schema ≠ "" then schema ++ "." ++ tablename else tablename

/-- Kind of a keyword-argument value passed to `BaseEntity.load`: an
`ArgLike` (an `Arg` or a `Const`), a `Load` object, or anything else. -/
inductive KwVal
  | argLike
  | loadArg
  | other
deriving DecidableEq, Repr

/-- The pieces of an entity class that `BaseEntity.load` consults: the
table name, `__identifying__`, the non-foreign-key column names
(`all_attrs`) and the foreign-key column names (`all_fks`). -/
structure LoadEntityDesc where
  tablename : String
  identifying : Finset String
  columns : Finset String
  fks : Finset String
deriving DecidableEq

/-- The exceptions `BaseEntity.load` can raise: the `ValueError` for
non-ArgLike values (line 224), `DBgenMissingInfo` (line 236) and
`DBgenInvalidArgument` (line 246). -/
inductive LoadError
  | valueError (badKeys : List String)
  | missingInfo (missing : Finset String)
  | invalidArgument (key : String)
deriving DecidableEq

/-- The `Load` object constructed on the success path (line 252). -/
structure LoadNode where
  primary_key : Option KwVal
  inputs : List (String × KwVal)
  insert : Bool
deriving DecidableEq, Repr

/-- `BaseEntity.load` (lines 217-257).  The keyword arguments are a
key-value list (Python guarantees distinct keys).  Steps, in source
order: reject any kwarg (other than `insert`) whose value is neither
ArgLike nor a Load; pop the primary-key override stored under the table
name; when there is none, fail if any identifying name is absent from
the remaining kwargs; split the remaining kwargs into attributes (keys
among the non-FK columns) and foreign keys, and fail on the first
foreign-key kwarg whose key is not a foreign-key column; finally build
the `Load`, replacing `Load`-valued FK inputs by their `out` arg.  The
entity is assumed to be a table with a single primary key (otherwise
`_get_load_entity`, called while building the result, raises). -/
def load (e : LoadEntityDesc) (ins : Bool) (kwargs : List (String × KwVal)) :
    Except LoadError LoadNode :=
  let invalid := kwargs.filter fun kv => decide (kv.1 ≠ "insert" ∧ kv.2 = KwVal.other)
  if invalid = [] then
    let pk := kwargs.lookup e.tablename
    let kwargs2 := kwargs.filter fun kv => decide (kv.1 ≠ e.tablename)
    let missing := e.identifying \ (kwargs2.map Prod.fst).toFinset
    if pk = none ∧ missing ≠ ∅ then
      Except.error (LoadError.missingInfo missing)
    else
      let attrs := kwargs2.filter fun kv => decide (kv.1 ∈ e.columns)
      let fks := kwargs2.filter fun kv => decide (kv.1 ∉ e.columns)
      match fks.find? (fun kv => decide (kv.1 ∉ e.fks)) with
      | some kv => Except.error (LoadError.invalidArgument kv.1)
      | none =>
        Except.ok
          { primary_key := pk
            inputs := attrs ++ fks.map fun kv =>
              (kv.1, if kv.2 = KwVal.loadArg then KwVal.argLike else kv.2)
            insert := ins }
  else
    Except.error (LoadError.valueError (invalid.map Prod.fst))

/-- The result of a `load` call is a missing-identifier failure
(`DBgenMissingInfo`). -/
def is_missing_error (r : Except LoadError LoadNode) : Prop :=
  ∃ m, r = Except.error (LoadError.missingInfo m)

instance {e a : Type} [DecidableEq e] [DecidableEq a] : DecidableEq (Except e a) := fun x y =>
  match x, y with
  | .error u, .error v =>
    if h : u = v then isTrue (by rw [h]) else isFalse (by simp [h])
  | .ok u, .ok v =>
    if h : u = v then isTrue (by rw [h]) else isFalse (by simp [h])
  | .error _, .ok _ => isFalse (by simp)
  | .ok _, .error _ => isFalse (by simp)

/-- C6 counterexample declaration: `__identifying__ = {"a"}` declared,
no `_hashinclude_` or `_hashexclude_` declared, no bases. -/
def c6_decl : EntityDecl :=
  { identifying := some {"a"}
    hashexclude := none
    hashinclude := none
    all_id := false
    annotations := ∅
    fields := {"a"} }

/-- The entity of `tests/test_action.py`: table `child` with
identifying attribute `test_id_col`, plain attribute `test_col` and
identifying foreign key `parent` (plus the framework columns). -/
def childEntity : LoadEntityDesc :=
  { tablename := "child"
    identifying := {"test_id_col", "parent"}
    columns := {"id", "gen_id", "created_at", "test_id_col", "test_col"}
    fks := {"parent"} }

end EntityCore

namespace GenCore

/-!
Embedding of the per-generator computational graph of
`src/dbgen/core/generator.py`: `_computational_graph` (lines 116-141)
with its `_graph` memoization, `add_node` (lines 198-216), and
`_sort_graph` (lines 143-151) built on
`dbgen.utils.graphs.topsort_with_dict`, i.e. networkx's
`lexicographical_topological_sort` (smallest ready node id first).
-/

/-- A node input: an `Arg(key, name)` reference to the output `name` of
the node with content hash `key`, or a `Const`. -/
inductive NodeInput
  | arg (key : String) (name : String)
  | const
deriving DecidableEq, Repr

/-- The three node kinds of a generator graph. -/
inductive NodeKind
  | extract
  | transform
  | load
deriving DecidableEq, Repr

/-- A computational node as the generator code sees it: its Python
class name (`add_node` compares `self.extract.__class__` with the plain
`Extract` class), its kind, its content hash and its named inputs. -/
structure CompNode where
  cls : String
  kind : NodeKind
  hash : String
  inputs : List (String × NodeInput)
deriving DecidableEq, Repr

/-- A `Generator` as far as graph building is concerned, including the
`_graph` private attribute (the memoized graph, `none` before the first
build). -/
structure DiGraph where
  nodes : List (String × CompNode)
  edges : List (String × String)
deriving DecidableEq, Repr

structure Generator where
  name : String
  extract : CompNode
  transforms : List CompNode
  loads : List CompNode
  graphCache : Option DiGraph
deriving DecidableEq, Repr

/-- Python dict insertion: overwrite an existing key in place, else
append. -/
def upsert (l : List (String × CompNode)) (key : String) (v : CompNode) :
    List (String × CompNode) :=
  if key ∈ l.map Prod.fst then
    l.map fun kv => if kv.1 = key then (key, v) else kv
  else l ++ [(key, v)]

/-- Lines 120-123: the node dict `{extract.hash: extract}` updated with
the transforms and then the loads, keyed by hash. -/
def buildNodes (g : Generator) : List (String × CompNode) :=
  let n0 := [(g.extract.hash, g.extract)]
  let n1 := g.transforms.foldl (fun acc t => upsert acc t.hash t) n0
  g.loads.foldl (fun acc t => upsert acc t.hash t) n1

/-- Lines 126-134 for one node: each `Arg` input whose key is absent
from the node dict raises `DBgenMissingInfo`; otherwise it contributes
the edge `(arg.key, node_id)`. -/
def nodeEdges (keys : List String) (node_id : String) :
    List (String × NodeInput) → Except String (List (String × String))
  | [] => Except.ok []
  | (_, NodeInput.const) :: rest => nodeEdges keys node_id rest
  | (_, NodeInput.arg key _) :: rest =>
    if key ∈ keys then
      match nodeEdges keys node_id rest with
      | Except.ok es => Except.ok ((key, node_id) :: es)
      | Except.error e => Except.error e
    else Except.error "Arg refers to a hash key that does not exist in the namespace"

/-- Lines 126-134 over all nodes of the dict. -/
def allEdges (keys : List String) :
    List (String × CompNode) → Except String (List (String × String))
  | [] => Except.ok []
  | (nid, n) :: rest =>
    match nodeEdges keys nid n.inputs with
    | Except.error e => Except.error e
    | Except.ok es =>
      match allEdges keys rest with
      | Except.error e => Except.error e
      | Except.ok es2 => Except.ok (es ++ es2)

/-- `Generator._computational_graph` (lines 116-141): return the cached
graph if `_graph` is set, else build nodes and edges, cache and return
the graph.  The generator is returned alongside to expose the cache
mutation. -/
def _computational_graph (g : Generator) : Except String (Generator × DiGraph) :=
  match g.graphCache with
  | some gr => Except.ok (g, gr)
  | none =>
    let nodes := buildNodes g
    match allEdges (nodes.map Prod.fst) nodes with
    | Except.error e => Except.error e
    | Except.ok edges =>
      let gr : DiGraph := { nodes := nodes, edges := edges }
      Except.ok ({ g with graphCache := some gr }, gr)

/-- `Generator.add_node` (lines 198-216): an extract replaces the
default extract (recognised by its class) or errors; transforms and
loads are appended.  The `_graph` cache is left untouched. -/
def add_node (g : Generator) (node : CompNode) : Except String Generator :=
  match node.kind with
  | NodeKind.extract =>
    if g.extract.cls = "Extract" then Except.ok { g with extract := node }
    else Except.error "Can only define 1 extractor per generator"
  | NodeKind.transform => Except.ok { g with transforms := g.transforms ++ [node] }
  | NodeKind.load => Except.ok { g with loads := g.loads ++ [node] }

/-- The smallest string of a list, i.e. the id networkx's
`lexicographical_topological_sort` (with no key function) pops from its
heap of ready nodes. -/
def minString : List String → Option String
  | [] => none
  | x :: xs =>
    match minString xs with
    | none => some x
    | some m => some (if x ≤ m then x else m)

/-- A node is ready when no edge from a still-remaining node enters
it. -/
def noIncoming (edges : List (String × String)) (remaining : List String)
    (n : String) : Bool :=
  edges.all fun e => !(e.2 == n && remaining.contains e.1)

/-- Kahn's algorithm with a lexicographic min-heap of ready nodes, as
networkx implements `lexicographical_topological_sort`: repeatedly emit
the smallest remaining node with no incoming edge from a remaining
node; `none` when stuck (a cycle, networkx's `NetworkXUnfeasible`,
turned into `topsort_with_dict`'s `ValueError`). -/
def lexTopsortAux : Nat → List String → List (String × String) → Option (List String)
  | 0, remaining, _ => if remaining.isEmpty then some [] else none
  | fuel + 1, remaining, edges =>
    if remaining.isEmpty then some []
    else
      match minString (remaining.filter (noIncoming edges remaining)) with
      | none => none
      | some n =>
        match lexTopsortAux fuel (remaining.erase n) edges with
        | none => none
        | some out => some (n :: out)

def lexicographical_topological_sort (nodes : List String)
    (edges : List (String × String)) : Option (List String) :=
  lexTopsortAux nodes.length nodes edges

/-- The filter of line 149: keep a node id when its graph data is not
an `Extract` instance. -/
def notExtract (gr : DiGraph) (key : String) : Bool :=
  match gr.nodes.lookup key with
  | some n => !(n.kind == NodeKind.extract)
  | none => false

/-- `Generator._sort_graph` (lines 143-151): topologically sort the
node ids of the computational graph, drop every node whose data is an
`Extract`, and prepend `self.extract`.  Returned as the list of node
hashes in evaluation order. -/
def _sort_graph (g : Generator) : Except String (Generator × List String) :=
  match _computational_graph g with
  | Except.error e => Except.error e
  | Except.ok (g2, gr) =>
    match lexicographical_topological_sort (gr.nodes.map Prod.fst) gr.edges with
    | none => Except.error "Cycles found"
    | some sorted =>
      let sorted_nodes := sorted.filter (notExtract gr)
      Except.ok (g2, g.extract.hash :: sorted_nodes)

/-- Concrete nodes and generator for the C4 counterexample and the C7
witness. -/
def c4_ext : CompNode :=
  { cls := "Extract", kind := NodeKind.extract, hash := "e", inputs := [] }

def c4_t : CompNode :=
  { cls := "PyBlock", kind := NodeKind.transform, hash := "t", inputs := [] }

def c4_gen : Generator :=
  { name := "g", extract := c4_ext, transforms := [], loads := [], graphCache := none }

def c4_gr : DiGraph := { nodes := [("e", c4_ext)], edges := [] }

def c4_gen1 : Generator :=
  { name := "g", extract := c4_ext, transforms := [], loads := [], graphCache := some c4_gr }

def c4_gen2 : Generator :=
  { name := "g", extract := c4_ext, transforms := [c4_t], loads := [], graphCache := some c4_gr }

/-- Concrete generator for the C7 witness: extract `e`, a transform `t`
consuming the extract's output, a load `l` consuming the transform's
output. -/
def c7_t : CompNode :=
  { cls := "PyBlock", kind := NodeKind.transform, hash := "t",
    inputs := [("x", NodeInput.arg "e" "out")] }

def c7_l : CompNode :=
  { cls := "Load", kind := NodeKind.load, hash := "l",
    inputs := [("y", NodeInput.arg "t" "out")] }

def c7_gen : Generator :=
  { name := "g", extract := c4_ext, transforms := [c7_t], loads := [c7_l],
    graphCache := none }

/-- The graph `_computational_graph` builds for `c7_gen`. -/
def c7_gr : DiGraph :=
  { nodes := [("e", c4_ext), ("t", c7_t), ("l", c7_l)]
    edges := [("e", "t"), ("t", "l")] }

end GenCore

namespace MiscSer

/-!
Embedding of the serialization layer of `dbgen/utils/misc.py` (the
older code base): `to_dict` (lines 43-68), `from_dict` (lines 70-90)
and the `Base.hash` property (lines 144-148).

Python values are modelled by the mutually inductive `PyVal` (lists and
key-value dictionaries get their own cons-list types so that every
function below is structurally recursive and kernel-computable); JSON
trees by `JVal`.  Floats are left out of the model.  The function
`hash_` of `dbgen.utils.str_utils` together with
`json.dumps(indent=4, sort_keys=True)` is modelled by an arbitrary
function `h : JVal → String` applied to the key-sorted (`canon`) JSON
tree — any fact proved for every such `h` holds for the real hash.
`json.loads(json.dumps(d, sort_keys=True))` returns the key-sorted
tree, so the `toJSON`/`fromJSON` round trip is
`from_dict (canon (to_dict h false x))`.

Objects are modelled as a `_pytype` string plus their stored
constructor kwargs (`Base.__init__` asserts the kwargs are stored
verbatim and none starts with an underscore); `getfullargspec` of the
reconstructing constructor is therefore the field-name set, so the
key filter of `from_dict` line 78 is modelled as dropping the metadata
keys `_pytype` and `_uid`.  Well-formedness (`WF`) restricts the model
to the values dbgen serializes: object types contain `"dbgen"`, field
names compare above `"_uid"` (lowercase identifiers), and dictionary
keys are listed in strictly ascending key order (a canonical
representative of the unordered Python dict).
-/

mutual
inductive JVal where
  | jint (n : Int)
  | jbool (b : Bool)
  | jstr (s : String)
  | jnull
  | jlist (xs : JList)
  | jdict (kvs : JPairs)
inductive JList where
  | nil
  | cons (x : JVal) (xs : JList)
inductive JPairs where
  | nil
  | cons (k : String) (v : JVal) (kvs : JPairs)
end

mutual
inductive PyVal where
  | vint (n : Int)
  | vbool (b : Bool)
  | vstr (s : String)
  | vnone
  | vlist (xs : PyList)
  | vtuple (xs : PyList)
  | vset (xs : PyList)
  | vdict (kvs : PyPairs)
  | vobj (pytype : String) (fields : PyPairs)
inductive PyList where
  | nil
  | cons (x : PyVal) (xs : PyList)
inductive PyPairs where
  | nil
  | cons (k : String) (v : PyVal) (kvs : PyPairs)
end

def JPairs.keys : JPairs → List String
  | JPairs.nil => []
  | JPairs.cons k _ kvs => k :: JPairs.keys kvs

def JPairs.lookup (key : String) : JPairs → Option JVal
  | JPairs.nil => none
  | JPairs.cons k v kvs => if key = k then some v else JPairs.lookup key kvs

def PyPairs.keys : PyPairs → List String
  | PyPairs.nil => []
  | PyPairs.cons k _ kvs => k :: PyPairs.keys kvs

def listPrefixOf : List Char → List Char → Bool
  | [], _ => true
  | _ :: _, [] => false
  | a :: as, b :: bs => (a == b) && listPrefixOf as bs

def listInfixOf (pat : List Char) : List Char → Bool
  | [] => pat.isEmpty
  | c :: rest => listPrefixOf pat (c :: rest) || listInfixOf pat rest

/-- The Python `in` operator on strings: substring containment. -/
def strContains (s pat : String) : Bool := listInfixOf pat.toList s.toList

/-- `x.get('_pytype', '')` for a serialized dict. -/
def pytypeOf (kvs : JPairs) : String :=
  match JPairs.lookup "_pytype" kvs with
  | some (JVal.jstr s) => s
  | _ => ""

/-- Lexicographic comparison of char lists by code point, as Python
compares strings. -/
def strLtB : List Char → List Char → Bool
  | _, [] => false
  | [], _ :: _ => true
  | a :: as, b :: bs =>
    if a.toNat < b.toNat then true
    else if a.toNat = b.toNat then strLtB as bs
    else false

def pyStrLt (a b : String) : Bool := strLtB a.toList b.toList

def pyStrLe (a b : String) : Bool := !(pyStrLt b a)

/-- Keys in strictly ascending order (Python string comparison). -/
def strictChain : List String → Bool
  | [] => true
  | [_] => true
  | a :: b :: rest => pyStrLt a b && strictChain (b :: rest)

def insertJPair (k : String) (v : JVal) : JPairs → JPairs
  | JPairs.nil => JPairs.cons k v JPairs.nil
  | JPairs.cons k2 v2 rest =>
    if pyStrLe k k2 then JPairs.cons k v (JPairs.cons k2 v2 rest)
    else JPairs.cons k2 v2 (insertJPair k v rest)

/-- Key-insertion sort: the ordering `json.dumps(sort_keys=True)` and
Python's `sorted` apply to dict items. -/
def sortJPairs : JPairs → JPairs
  | JPairs.nil => JPairs.nil
  | JPairs.cons k v rest => insertJPair k v (sortJPairs rest)

mutual
/-- The key-sorted form of a JSON tree: what
`json.loads(json.dumps(d, sort_keys=True))` returns. -/
def canon : JVal → JVal
  | JVal.jdict kvs => JVal.jdict (sortJPairs (canonPairs kvs))
  | JVal.jlist xs => JVal.jlist (canonList xs)
  | JVal.jint n => JVal.jint n
  | JVal.jbool b => JVal.jbool b
  | JVal.jstr s => JVal.jstr s
  | JVal.jnull => JVal.jnull
def canonList : JList → JList
  | JList.nil => JList.nil
  | JList.cons x xs => JList.cons (canon x) (canonList xs)
def canonPairs : JPairs → JPairs
  | JPairs.nil => JPairs.nil
  | JPairs.cons k v kvs => JPairs.cons k (canon v) (canonPairs kvs)
end

mutual
/-- `to_dict` applied to an already-serialized value: line 65 of
`misc.py` re-serializes `data[k]` (a plain dict/list/primitive tree)
with `id_only=True`; on such values `to_dict` only maps itself over
dicts and lists. -/
def to_dictJ : JVal → JVal
  | JVal.jdict kvs => JVal.jdict (to_dictJPairs kvs)
  | JVal.jlist xs => JVal.jlist (to_dictJList xs)
  | JVal.jint n => JVal.jint n
  | JVal.jbool b => JVal.jbool b
  | JVal.jstr s => JVal.jstr s
  | JVal.jnull => JVal.jnull
def to_dictJList : JList → JList
  | JList.nil => JList.nil
  | JList.cons x xs => JList.cons (to_dictJ x) (to_dictJList xs)
def to_dictJPairs : JPairs → JPairs
  | JPairs.nil => JPairs.nil
  | JPairs.cons k v kvs => JPairs.cons k (to_dictJ v) (to_dictJPairs kvs)
end

mutual
/-- `to_dict(x, id_only)` (lines 43-68).  Primitives map to
themselves; dicts and lists map recursively; tuples and sets become
`{"_pytype": "builtins.<kind>", "_value": [...]}`; an object becomes
`{"_pytype": module.name, ("_uid": hash of the canonical dump of the
hashdict when id_only is false,) **serialized kwargs in sorted key
order}` — the sort of `sorted(vars(x).items())` is applied to the
serialized pairs, which touches only the keys and so commutes with the
per-value serialization.  The hashdict re-serializes the already
serialized `data` with `id_only=True` (`to_dictJPairs`). -/
def to_dict (h : JVal → String) (idOnly : Bool) : PyVal → JVal
  | PyVal.vint n => JVal.jint n
  | PyVal.vbool b => JVal.jbool b
  | PyVal.vstr s => JVal.jstr s
  | PyVal.vnone => JVal.jnull
  | PyVal.vlist xs => JVal.jlist (to_dictList h idOnly xs)
  | PyVal.vtuple xs =>
    JVal.jdict (JPairs.cons "_pytype" (JVal.jstr "builtins.tuple")
      (JPairs.cons "_value" (JVal.jlist (to_dictList h idOnly xs)) JPairs.nil))
  | PyVal.vset xs =>
    JVal.jdict (JPairs.cons "_pytype" (JVal.jstr "builtins.set")
      (JPairs.cons "_value" (JVal.jlist (to_dictList h idOnly xs)) JPairs.nil))
  | PyVal.vdict kvs => JVal.jdict (to_dictPairs h idOnly kvs)
  | PyVal.vobj p fields =>
    let data := sortJPairs (to_dictPairs h idOnly fields)
    if idOnly then JVal.jdict (JPairs.cons "_pytype" (JVal.jstr p) data)
    else
      let hashdict := JVal.jdict (JPairs.cons "_pytype" (JVal.jstr p) (to_dictJPairs data))
      JVal.jdict (JPairs.cons "_pytype" (JVal.jstr p)
        (JPairs.cons "_uid" (JVal.jstr (h (canon hashdict))) data))
def to_dictList (h : JVal → String) (idOnly : Bool) : PyList → JList
  | PyList.nil => JList.nil
  | PyList.cons x xs => JList.cons (to_dict h idOnly x) (to_dictList h idOnly xs)
def to_dictPairs (h : JVal → String) (idOnly : Bool) : PyPairs → JPairs
  | PyPairs.nil => JPairs.nil
  | PyPairs.cons k v kvs => JPairs.cons k (to_dict h idOnly v) (to_dictPairs h idOnly kvs)
end

/-- Iterating a Python dict yields its keys: the (dead)
`builtins/tuple` and `builtins/set` branches of `from_dict` build their
result from the keys of the dict. -/
def keysAsStrs : JPairs → PyList
  | JPairs.nil => PyList.nil
  | JPairs.cons k _ kvs => PyList.cons (PyVal.vstr k) (keysAsStrs kvs)

mutual
/-- `from_dict` (lines 70-90).  A dict whose `_pytype` contains
`"dbgen"` is rebuilt as an object from the non-metadata entries (the
`getfullargspec` filter of line 78, here: dropping `_pytype` and
`_uid`); the `'builtins/tuple'`/`'builtins/set'` comparisons use a
slash while `to_dict` writes a dot, so serialized tuples and sets fall
through to the plain-dict branch; a dict carrying the (typo'd) key
`_ptype` trips the assert of line 84; anything else is mapped
recursively. -/
def from_dict : JVal → Except String PyVal
  | JVal.jint n => Except.ok (PyVal.vint n)
  | JVal.jbool b => Except.ok (PyVal.vbool b)
  | JVal.jstr s => Except.ok (PyVal.vstr s)
  | JVal.jnull => Except.ok PyVal.vnone
  | JVal.jlist xs =>
    match from_dictList xs with
    | Except.error e => Except.error e
    | Except.ok ys => Except.ok (PyVal.vlist ys)
  | JVal.jdict kvs =>
    if strContains (pytypeOf kvs) "dbgen" then
      match from_dictObjPairs kvs with
      | Except.error e => Except.error e
      | Except.ok fs => Except.ok (PyVal.vobj (pytypeOf kvs) fs)
    else if pytypeOf kvs = "builtins/tuple" then
      Except.ok (PyVal.vtuple (keysAsStrs kvs))
    else if pytypeOf kvs = "builtins/set" then
      Except.ok (PyVal.vset (keysAsStrs kvs))
    else if (JPairs.keys kvs).contains "_ptype" then
      Except.error "assert failure: _ptype in x"
    else
      match from_dictPairs kvs with
      | Except.error e => Except.error e
      | Except.ok fs => Except.ok (PyVal.vdict fs)
def from_dictList : JList → Except String PyList
  | JList.nil => Except.ok PyList.nil
  | JList.cons x xs =>
    match from_dict x with
    | Except.error e => Except.error e
    | Except.ok y =>
      match from_dictList xs with
      | Except.error e => Except.error e
      | Except.ok ys => Except.ok (PyList.cons y ys)
def from_dictPairs : JPairs → Except String PyPairs
  | JPairs.nil => Except.ok PyPairs.nil
  | JPairs.cons k v kvs =>
    match from_dict v with
    | Except.error e => Except.error e
    | Except.ok y =>
      match from_dictPairs kvs with
      | Except.error e => Except.error e
      | Except.ok ys => Except.ok (PyPairs.cons k y ys)
def from_dictObjPairs : JPairs → Except String PyPairs
  | JPairs.nil => Except.ok PyPairs.nil
  | JPairs.cons k v kvs =>
    if k = "_pytype" ∨ k = "_uid" then from_dictObjPairs kvs
    else
      match from_dict v with
      | Except.error e => Except.error e
      | Except.ok y =>
        match from_dictObjPairs kvs with
        | Except.error e => Except.error e
        | Except.ok ys => Except.ok (PyPairs.cons k y ys)
end

/-- Constructor-kwarg names sit above `"_uid"` in Python string order
(identifiers that do not start with an underscore or an uppercase
letter); `Base.__init__` forbids underscore-leading arg names. -/
def fieldKeysOk : PyPairs → Bool
  | PyPairs.nil => true
  | PyPairs.cons k _ kvs => pyStrLt "_uid" k && fieldKeysOk kvs

mutual
/-- The serializable values: object types contain `"dbgen"`, object
fields are strictly key-sorted kwargs named above `"_uid"`, user dicts
are strictly key-sorted and avoid the metadata keys. -/
def WF : PyVal → Bool
  | PyVal.vint _ => true
  | PyVal.vbool _ => true
  | PyVal.vstr _ => true
  | PyVal.vnone => true
  | PyVal.vlist xs => WFList xs
  | PyVal.vtuple xs => WFList xs
  | PyVal.vset xs => WFList xs
  | PyVal.vdict kvs =>
    strictChain (PyPairs.keys kvs) && !((PyPairs.keys kvs).contains "_pytype") &&
      !((PyPairs.keys kvs).contains "_ptype") && WFPairs kvs
  | PyVal.vobj p fields =>
    strContains p "dbgen" && strictChain (PyPairs.keys fields) &&
      fieldKeysOk fields && WFPairs fields
def WFList : PyList → Bool
  | PyList.nil => true
  | PyList.cons x xs => WF x && WFList xs
def WFPairs : PyPairs → Bool
  | PyPairs.nil => true
  | PyPairs.cons _ v kvs => WF v && WFPairs kvs
end

/-- `Base.hash` (lines 144-148): serialize and read the `_uid` entry. -/
def base_hash (h : JVal → String) (x : PyVal) : Option JVal :=
  match to_dict h false x with
  | JVal.jdict kvs => JPairs.lookup "_uid" kvs
  | _ => none

/-- Concrete object for the C8 witness. -/
def c8_obj : PyVal :=
  PyVal.vobj "dbgen.core.schema.Obj"
    (PyPairs.cons "desc" (PyVal.vstr "d")
      (PyPairs.cons "name" (PyVal.vstr "tab") PyPairs.nil))

end MiscSer

namespace RunGen

theorem process_rows_append_ok (pre rest : List (String × RowOutcome))
    (hpre : ∀ p ∈ pre, p.2 = RowOutcome.ok) :
    process_rows (pre ++ rest) =
      (pre.map Prod.fst ++ (process_rows rest).1, (process_rows rest).2) := by
  induction pre with
  | nil => simp
  | cons hd tl ih =>
    have hhd : hd.2 = RowOutcome.ok := hpre hd (by simp)
    obtain ⟨h, o⟩ := hd
    simp only at hhd
    subst hhd
    have := ih (fun p hp => hpre p (by simp [hp]))
    simp [process_rows, this]

end RunGen

/-- C1 counterexample: in the run `[ok, ExternalError, ok]` the code
marks the whole generator `failed` (return code 1), records only the
first row in `repeats` and never processes the third row — contradicting
the claim that the failing row alone is recorded as failed, that the
executor continues, and that the generator finishes with the successful
rows in `repeats`. -/
theorem c1_external_error_not_isolated_counterexample :
    (RunGen.run_gen RunGen.c1_rows).status = some "failed" ∧
    (RunGen.run_gen RunGen.c1_rows).returnCode = some 1 ∧
    (RunGen.run_gen RunGen.c1_rows).repeats = ["h1"] ∧
    "h3" ∉ (RunGen.run_gen RunGen.c1_rows).repeats ∧
    (RunGen.run_gen RunGen.c1_rows).status ≠ some "completed" := by
  decide

/-- C1 amended: an `ExternalError` raised while processing a row aborts
the whole generator: `run_gen` catches it, records the error text and
status `failed`, returns 1, keeps the repeat records of the rows
processed before the failing row, and processes no further row; a
non-`ExternalError` exception instead propagates out of `run_gen`
uncaught, with no status written by `run_gen` itself. -/
theorem c1_amended_external_error_aborts (pre post : List (String × RunGen.RowOutcome))
    (h h' m m' : String)
    (hpre : ∀ p ∈ pre, p.2 = RunGen.RowOutcome.ok) :
    (RunGen.run_gen (pre ++ (h, RunGen.RowOutcome.externalError m) :: post) =
      { status := some "failed", error := some m, returnCode := some 1
        repeats := pre.map Prod.fst, uncaught := none }) ∧
    (RunGen.run_gen (pre ++ (h', RunGen.RowOutcome.otherError m') :: post) =
      { status := none, error := none, returnCode := none
        repeats := pre.map Prod.fst, uncaught := some m' }) := by
  constructor
  · unfold RunGen.run_gen
    rw [RunGen.process_rows_append_ok pre _ hpre]
    simp [RunGen.process_rows]
  · unfold RunGen.run_gen
    rw [RunGen.process_rows_append_ok pre _ hpre]
    simp [RunGen.process_rows]

/-- Witness for the amended C1 theorem at a concrete run. -/
theorem c1_amended_external_error_aborts_witness :
    RunGen.run_gen [("h1", RunGen.RowOutcome.ok), ("h2", RunGen.RowOutcome.externalError "boom")] =
      { status := some "failed", error := some "boom", returnCode := some 1
        repeats := ["h1"], uncaught := none } :=
  (c1_amended_external_error_aborts [("h1", RunGen.RowOutcome.ok)] []
    "h2" "x" "boom" "y" (by decide)).1

/-- C2 counterexample: a generator tagged both `io` and `parallel`, run
with `serial = false`, is processed with the worker pool (`parallel`
is computed from the `parallel` tag and `serial` only), contradicting
the claim that the `io` tag forces single-worker processing. -/
theorem c2_io_does_not_force_serial_counterexample :
    RunGen.parallel_flag { name := "g", tags := ["io", "parallel"] } false = true ∧
    "io" ∈ (({ name := "g", tags := ["io", "parallel"] } : RunGen.Gen)).tags := by
  decide

/-- C2 amended: the `io` tag forces `retry_ = true` (repeat suppression
bypassed) for every caller-supplied `retry` value, but row processing is
parallel exactly when `serial` is false and the generator carries the
`parallel` tag — the `io` tag does not force single-worker execution. -/
theorem c2_amended_io_forces_retry (gen : RunGen.Gen) (retry serial : Bool)
    (hio : "io" ∈ gen.tags) :
    RunGen.retry_flag gen retry = true ∧
    RunGen.parallel_flag gen serial = ((!serial) && gen.tags.contains "parallel") := by
  refine ⟨?_, rfl⟩
  simp [RunGen.retry_flag]
  exact Or.inr hio

/-- Witness for the amended C2 theorem at a concrete generator. -/
theorem c2_amended_io_forces_retry_witness :
    RunGen.retry_flag { name := "g", tags := ["io"] } false = true ∧
    RunGen.parallel_flag { name := "g", tags := ["io"] } false =
      ((!false) && (["io"] : List String).contains "parallel") :=
  c2_amended_io_forces_retry { name := "g", tags := ["io"] } false false (by decide)

/-- C3: on the success path with 2 processed inputs and 60 seconds of
elapsed time, the code stores `runtime = round(60/2, 2) = 30` and
`rate = round(60/60, 4) = 1`, while the claim (and the column names)
demand `runtime = 60` and `rate = 2/60`; only `n_inputs` is recorded as
claimed. -/
theorem c3_runtime_rate_swapped :
    RunGen.record_stats 60 2 = { runtime := 30, rate := 1, n_inputs := 2 } ∧
    (RunGen.record_stats 60 2).runtime ≠ 60 ∧
    (RunGen.record_stats 60 2).rate ≠ 2 / 60 ∧
    (RunGen.record_stats 60 2).n_inputs = 2 := by
  have h1 : RunGen.record_stats 60 2 = { runtime := 30, rate := 1, n_inputs := 2 } := by
    unfold RunGen.record_stats RunGen.pyround RunGen.safe_div RunGen.rat_floor
    norm_num
  refine ⟨h1, ?_, ?_, ?_⟩ <;> rw [h1] <;> norm_num

namespace EntityCore

theorem inherit_field_eq (l : List (Finset String)) :
    inherit_field l = l.foldr (fun b acc => b ∪ acc) ∅ := by
  unfold inherit_field
  rw [List.foldl_reverse]
  induction l with
  | nil => rfl
  | cons h t ih => simp [List.foldr, ih, Finset.union_comm]

theorem subset_inherit_field {l : List (Finset String)} {b : Finset String}
    (hb : b ∈ l) : b ⊆ inherit_field l := by
  rw [inherit_field_eq]
  induction l with
  | nil => simp at hb
  | cons h t ih =>
    rcases List.mem_cons.1 hb with rfl | hmem
    · exact Finset.subset_union_left
    · exact (ih hmem).trans Finset.subset_union_right

theorem lookup_none {β : Type} (k : String) (l : List (String × β))
    (h : k ∉ l.map Prod.fst) : l.lookup k = none := by
  induction l with
  | nil => rfl
  | cons kv t ih =>
    obtain ⟨k1, v1⟩ := kv
    simp only [List.map_cons, List.mem_cons, not_or] at h
    have hbeq : (k == k1) = false := by
      simp [h.1]
    simp [List.lookup, hbeq, ih h.2]

theorem lookup_mem {β : Type} (k : String) (l : List (String × β))
    (h : k ∈ l.map Prod.fst) : ∃ v, l.lookup k = some v := by
  induction l with
  | nil => simp at h
  | cons kv t ih =>
    obtain ⟨k1, v1⟩ := kv
    by_cases hk : k = k1
    · exact ⟨v1, by simp [List.lookup, hk]⟩
    · have hmem : k ∈ t.map Prod.fst := by
        simpa [hk] using h
      obtain ⟨v, hv⟩ := ih hmem
      have hbeq : (k == k1) = false := by
        simp [hk]
      exact ⟨v, by simp [List.lookup, hbeq, hv]⟩

theorem findSome?_id_all_none (l : List (Option String))
    (h : ∀ b ∈ l, b = none) : l.findSome? id = none := by
  induction l with
  | nil => rfl
  | cons b t ih =>
    have hb := h b (by simp)
    subst hb
    simpa [List.findSome?] using ih (fun x hx => h x (by simp [hx]))

theorem foldl_getD_all_none (l : List (Option String))
    (h : ∀ b ∈ l, b = none) :
    l.foldl (fun _ b => b.getD "") "" = "" := by
  induction l with
  | nil => rfl
  | cons b t ih =>
    have hb := h b (by simp)
    subst hb
    simpa using ih (fun x hx => h x (by simp [hx]))

theorem overwrite_parent_all_none (l : List (Option String))
    (h : ∀ b ∈ l, b = none) : overwrite_parent l = "" := by
  unfold overwrite_parent
  exact foldl_getD_all_none l.reverse (fun b hb => h b (List.mem_reverse.1 hb))

end EntityCore

/-- C6 counterexample: a class declaring `__identifying__ = {"a"}` and
no `_hashinclude_`, with no bases, ends with `_hashinclude_ = {"a"}`,
while the claimed union rule (declared hash-include united with the
bases' hash-includes) predicts the empty set — line 100 additionally
unions the identifying set into `_hashinclude_`. -/
theorem c6_hashinclude_counterexample :
    EntityCore.entity_new EntityCore.c6_decl [] =
      Except.ok { identifying := {"a"}, hashexclude := ∅, hashinclude := {"a"} } ∧
    ({"a"} : Finset String) ≠
      EntityCore.c6_decl.hashinclude.getD ∅ ∪
        List.foldr (fun (b : EntityCore.EntitySets) acc => b.hashinclude ∪ acc) ∅ [] := by
  constructor
  · decide
  · decide

/-- C6 amended: for a successfully declared entity class (without the
`all_id` shortcut), the identifying set and the hash-exclude set equal
the union of the declared set with all bases' sets (hence contain each
base's set monotonically), while the hash-include set is that union
additionally united with the class's full identifying set. -/
theorem c6_amended_union_inheritance (decl : EntityCore.EntityDecl)
    (bases : List EntityCore.EntitySets) (s : EntityCore.EntitySets)
    (hall : decl.all_id = false)
    (h : EntityCore.entity_new decl bases = Except.ok s) :
    (s.identifying =
        decl.identifying.getD ∅ ∪ bases.foldr (fun b acc => b.identifying ∪ acc) ∅ ∧
      ∀ b ∈ bases, b.identifying ⊆ s.identifying) ∧
    (s.hashexclude =
        decl.hashexclude.getD ∅ ∪ bases.foldr (fun b acc => b.hashexclude ∪ acc) ∅ ∧
      ∀ b ∈ bases, b.hashexclude ⊆ s.hashexclude) ∧
    (s.hashinclude =
        (decl.hashinclude.getD ∅ ∪ bases.foldr (fun b acc => b.hashinclude ∪ acc) ∅) ∪
          s.identifying ∧
      ∀ b ∈ bases, b.hashinclude ⊆ s.hashinclude) := by
  unfold EntityCore.entity_new at h
  rw [hall] at h
  simp at h
  split at h
  · rw [Except.ok.injEq] at h
    subst h
    refine ⟨⟨?_, ?_⟩, ⟨?_, ?_⟩, ⟨?_, ?_⟩⟩
    · simp [EntityCore.inherit_field_eq, List.foldr_map]
    · intro b hb
      exact le_trans
        (EntityCore.subset_inherit_field (List.mem_map_of_mem EntityCore.EntitySets.identifying hb))
        Finset.subset_union_right
    · simp [EntityCore.inherit_field_eq, List.foldr_map]
    · intro b hb
      exact le_trans
        (EntityCore.subset_inherit_field (List.mem_map_of_mem EntityCore.EntitySets.hashexclude hb))
        Finset.subset_union_right
    · simp [EntityCore.inherit_field_eq, List.foldr_map, Finset.union_assoc]
    · intro b hb
      refine le_trans ?_ Finset.subset_union_right
      refine le_trans ?_ Finset.subset_union_left
      exact EntityCore.subset_inherit_field
        (List.mem_map_of_mem EntityCore.EntitySets.hashinclude hb)
  · simp at h

/-- Witness for the amended C6 theorem at a concrete declaration. -/
theorem c6_amended_union_inheritance_witness :
    (({"a"} : Finset String) =
        EntityCore.c6_decl.identifying.getD ∅ ∪
          List.foldr (fun (b : EntityCore.EntitySets) acc => b.identifying ∪ acc) ∅ [] ∧
      ∀ b ∈ ([] : List EntityCore.EntitySets), b.identifying ⊆ ({"a"} : Finset String)) ∧
    ((∅ : Finset String) =
        EntityCore.c6_decl.hashexclude.getD ∅ ∪
          List.foldr (fun (b : EntityCore.EntitySets) acc => b.hashexclude ∪ acc) ∅ [] ∧
      ∀ b ∈ ([] : List EntityCore.EntitySets), b.hashexclude ⊆ (∅ : Finset String)) ∧
    (({"a"} : Finset String) =
        (EntityCore.c6_decl.hashinclude.getD ∅ ∪
          List.foldr (fun (b : EntityCore.EntitySets) acc => b.hashinclude ∪ acc) ∅ []) ∪
          ({"a"} : Finset String) ∧
      ∀ b ∈ ([] : List EntityCore.EntitySets), b.hashinclude ⊆ ({"a"} : Finset String)) :=
  c6_amended_union_inheritance EntityCore.c6_decl []
    { identifying := {"a"}, hashexclude := ∅, hashinclude := {"a"} } rfl (by decide)

/-- C9: an entity class with no `__schema__` of its own and none on any
base gets `__schema__ = "public"` and a schema-qualified
`__fulltablename__ = "public." ++ tablename`. -/
theorem c9_default_schema (declared : Option String) (bases : List (Option String))
    (t : String) (hd : declared = none) (hb : ∀ b ∈ bases, b = none) :
    EntityCore.resolve_schema declared bases = "public" ∧
    EntityCore.fulltablename (EntityCore.resolve_schema declared bases) t =
      "public" ++ "." ++ t := by
  subst hd
  have h1 : EntityCore.getattr_schema none bases = "" := by
    simp [EntityCore.getattr_schema, EntityCore.findSome?_id_all_none bases hb]
  have h2 : EntityCore.overwrite_parent bases = "" :=
    EntityCore.overwrite_parent_all_none bases hb
  have hres : EntityCore.resolve_schema none bases = "public" := by
    simp [EntityCore.resolve_schema, h1, h2]
  refine ⟨hres, ?_⟩
  rw [hres]
  unfold EntityCore.fulltablename
  rw [if_pos (by decide)]

/-- Witness for the C9 theorem at a concrete class. -/
theorem c9_default_schema_witness :
    EntityCore.resolve_schema none [none, none] = "public" ∧
    EntityCore.fulltablename (EntityCore.resolve_schema none [none, none]) "child" =
      "public" ++ "." ++ "child" :=
  c9_default_schema none [none, none] "child" rfl (by decide)

namespace EntityCore

theorem sdiff_ne_empty_iff {s : Finset String} {l : List String} :
    s \ l.toFinset ≠ ∅ ↔ ∃ i ∈ s, i ∉ l := by
  constructor
  · intro h
    obtain ⟨x, hx⟩ := Finset.nonempty_iff_ne_empty.2 h
    rw [Finset.mem_sdiff] at hx
    exact ⟨x, hx.1, by simpa [List.mem_toFinset] using hx.2⟩
  · rintro ⟨i, his, hnl⟩ heq
    have hmem : i ∈ s \ l.toFinset :=
      Finset.mem_sdiff.2 ⟨his, by simpa [List.mem_toFinset] using hnl⟩
    rw [heq] at hmem
    exact absurd hmem (Finset.not_mem_empty i)

theorem find?_some_of_mem {α : Type} (p : α → Bool) (l : List α) (a : α)
    (ha : a ∈ l) (hp : p a = true) : ∃ b, l.find? p = some b := by
  induction l with
  | nil => simp at ha
  | cons x t ih =>
    by_cases hx : p x = true
    · exact ⟨x, by simp [List.find?, hx]⟩
    · have hx' : p x = false := by
        simpa using hx
      rcases List.mem_cons.1 ha with rfl | hmem
      · exact absurd hp hx
      · obtain ⟨b, hb⟩ := ih hmem
        exact ⟨b, by simp [List.find?, hx', hb]⟩

end EntityCore

/-- C5: for a `load` call whose keyword values are all well-formed
(ArgLike or Load objects): when no primary-key override is supplied
(no kwarg named like the table), the call fails with `DBgenMissingInfo`
exactly when some identifying name is absent from the kwargs; when a
primary-key override is supplied, the call never fails with
`DBgenMissingInfo`. -/
theorem c5_missing_identifier_iff (e : EntityCore.LoadEntityDesc) (ins : Bool)
    (kwargs : List (String × EntityCore.KwVal))
    (hvals : ∀ kv ∈ kwargs, kv.2 ≠ EntityCore.KwVal.other) :
    (e.tablename ∉ kwargs.map Prod.fst →
      (EntityCore.is_missing_error (EntityCore.load e ins kwargs) ↔
        ∃ i ∈ e.identifying, i ∉ kwargs.map Prod.fst)) ∧
    (e.tablename ∈ kwargs.map Prod.fst →
      ¬ EntityCore.is_missing_error (EntityCore.load e ins kwargs)) := by
  have hinv : (kwargs.filter fun kv =>
      decide (kv.1 ≠ "insert" ∧ kv.2 = EntityCore.KwVal.other)) = [] := by
    rw [List.filter_eq_nil_iff]
    intro kv hkv
    simp [hvals kv hkv]
  constructor
  · intro hpk
    have hlk : kwargs.lookup e.tablename = none := EntityCore.lookup_none _ _ hpk
    have hkw2 : (kwargs.filter fun kv => decide (kv.1 ≠ e.tablename)) = kwargs := by
      rw [List.filter_eq_self]
      intro kv hkv
      simp only [decide_eq_true_eq]
      intro heq
      exact hpk (heq ▸ List.mem_map_of_mem Prod.fst hkv)
    simp only [EntityCore.load, EntityCore.is_missing_error, hinv, hlk, hkw2]
    rw [if_pos trivial]
    by_cases hm : e.identifying \ (kwargs.map Prod.fst).toFinset = ∅
    · rw [if_neg (by simp [hm])]
      have hnope : ¬ ∃ i ∈ e.identifying, i ∉ kwargs.map Prod.fst := by
        rw [← EntityCore.sdiff_ne_empty_iff]
        simp [hm]
      refine iff_of_false ?_ hnope
      rintro ⟨mm, hmm⟩
      split at hmm <;> simp at hmm
    · rw [if_pos ⟨trivial, hm⟩]
      refine iff_of_true ⟨_, rfl⟩ ?_
      rw [← EntityCore.sdiff_ne_empty_iff]
      exact hm
  · intro hpk
    obtain ⟨v, hv⟩ := EntityCore.lookup_mem _ _ hpk
    simp only [EntityCore.load, EntityCore.is_missing_error, hinv, hv]
    rw [if_pos trivial]
    rw [if_neg (by simp)]
    rintro ⟨mm, hmm⟩
    split at hmm <;> simp at hmm

/-- Witness for the C5 theorem: the `test_load_exceptions` call
`child.load(test_col=Const(None))` (no PK override, identifying
`test_id_col` and `parent` both absent) fails with `DBgenMissingInfo`. -/
theorem c5_missing_identifier_iff_witness :
    EntityCore.is_missing_error
      (EntityCore.load EntityCore.childEntity false [("test_col", EntityCore.KwVal.argLike)]) :=
  ((c5_missing_identifier_iff EntityCore.childEntity false
      [("test_col", EntityCore.KwVal.argLike)] (by decide)).1 (by decide)).mpr
    ⟨"parent", by decide, by decide⟩

/-- C10: a `Load` is only constructed from valid kwargs: any kwarg
value that is neither ArgLike nor a Load makes the call fail with the
`ValueError` (unconditionally, since that check runs first); any kwarg
key that names neither a column nor a foreign key (and is not the PK
override) prevents a `Load` from being constructed, and — whenever the
earlier missing-identifier check passes (PK override supplied or all
identifying names present) — the failure is `DBgenInvalidArgument`. -/
theorem c10_invalid_kwargs_rejected (e : EntityCore.LoadEntityDesc) (ins : Bool)
    (kwargs : List (String × EntityCore.KwVal)) :
    ((∃ kv ∈ kwargs, kv.1 ≠ "insert" ∧ kv.2 = EntityCore.KwVal.other) →
      ∃ bad, EntityCore.load e ins kwargs =
        Except.error (EntityCore.LoadError.valueError bad)) ∧
    ((∀ kv ∈ kwargs, kv.2 ≠ EntityCore.KwVal.other) →
      (∃ k ∈ kwargs.map Prod.fst, k ≠ e.tablename ∧ k ∉ e.columns ∧ k ∉ e.fks) →
      (∀ node, EntityCore.load e ins kwargs ≠ Except.ok node) ∧
      ((e.tablename ∈ kwargs.map Prod.fst ∨
          ∀ i ∈ e.identifying, i ∈ kwargs.map Prod.fst ∧ i ≠ e.tablename) →
        ∃ k, EntityCore.load e ins kwargs =
          Except.error (EntityCore.LoadError.invalidArgument k))) := by
  constructor
  · rintro ⟨kv, hkv, hne, ho⟩
    have hmem : kv ∈ kwargs.filter fun kv =>
        decide (kv.1 ≠ "insert" ∧ kv.2 = EntityCore.KwVal.other) :=
      List.mem_filter.2 ⟨hkv, by simp [hne, ho]⟩
    have hnil : (kwargs.filter fun kv =>
        decide (kv.1 ≠ "insert" ∧ kv.2 = EntityCore.KwVal.other)) ≠ [] :=
      List.ne_nil_of_mem hmem
    exact ⟨_, by simp only [EntityCore.load]; rw [if_neg hnil]⟩
  · rintro hvals ⟨k, hk, hkt, hkc, hkf⟩
    have hinv : (kwargs.filter fun kv =>
        decide (kv.1 ≠ "insert" ∧ kv.2 = EntityCore.KwVal.other)) = [] := by
      rw [List.filter_eq_nil_iff]
      intro kv hkv
      simp [hvals kv hkv]
    obtain ⟨kv, hkvmem, hfst⟩ := List.mem_map.1 hk
    have hkv2 : kv ∈ kwargs.filter fun kv => decide (kv.1 ≠ e.tablename) :=
      List.mem_filter.2 ⟨hkvmem, by simp [hfst, hkt]⟩
    have hkfks : kv ∈ (kwargs.filter fun kv => decide (kv.1 ≠ e.tablename)).filter
        fun kv => decide (kv.1 ∉ e.columns) :=
      List.mem_filter.2 ⟨hkv2, by simp [hfst, hkc]⟩
    obtain ⟨kv', hfind⟩ := EntityCore.find?_some_of_mem
      (fun kv => decide (kv.1 ∉ e.fks)) _ kv hkfks (by simp [hfst, hkf])
    constructor
    · intro node
      simp only [EntityCore.load, hinv]
      rw [if_pos trivial]
      by_cases hc : kwargs.lookup e.tablename = none ∧
          e.identifying \
            ((kwargs.filter fun kv => decide (kv.1 ≠ e.tablename)).map Prod.fst).toFinset ≠ ∅
      · rw [if_pos hc]
        simp
      · rw [if_neg hc]
        rw [hfind]
        simp
    · intro hside
      have hc : ¬ (kwargs.lookup e.tablename = none ∧
          e.identifying \
            ((kwargs.filter fun kv => decide (kv.1 ≠ e.tablename)).map Prod.fst).toFinset ≠ ∅) := by
        rcases hside with hleft | hright
        · obtain ⟨v, hv⟩ := EntityCore.lookup_mem _ _ hleft
          rintro ⟨h1, _⟩
          rw [hv] at h1
          simp at h1
        · rintro ⟨_, h2⟩
          apply h2
          rw [Finset.eq_empty_iff_forall_not_mem]
          intro i hi
          rw [Finset.mem_sdiff] at hi
          obtain ⟨his, hnot⟩ := hi
          obtain ⟨hikeys, hit⟩ := hright i his
          apply hnot
          rw [List.mem_toFinset]
          obtain ⟨kvi, hkvi, hfi⟩ := List.mem_map.1 hikeys
          exact List.mem_map.2 ⟨kvi, List.mem_filter.2 ⟨hkvi, by simp [hfi, hit]⟩, hfi⟩
      simp only [EntityCore.load, hinv]
      rw [if_pos trivial]
      rw [if_neg hc]
      rw [hfind]
      exact ⟨kv'.1, rfl⟩

/-- Witness for the C10 theorem: `child.load(child=Const(...),
bogus=Const(...))` (PK override plus an unknown kwarg) is rejected, and
specifically with `DBgenInvalidArgument`. -/
theorem c10_invalid_kwargs_rejected_witness :
    (∀ node, EntityCore.load EntityCore.childEntity false
        [("child", EntityCore.KwVal.argLike), ("bogus", EntityCore.KwVal.argLike)] ≠
      Except.ok node) ∧
    ∃ k, EntityCore.load EntityCore.childEntity false
        [("child", EntityCore.KwVal.argLike), ("bogus", EntityCore.KwVal.argLike)] =
      Except.error (EntityCore.LoadError.invalidArgument k) := by
  have h := (c10_invalid_kwargs_rejected EntityCore.childEntity false
      [("child", EntityCore.KwVal.argLike), ("bogus", EntityCore.KwVal.argLike)]).2
    (by decide) ⟨"bogus", by decide, by decide, by decide, by decide⟩
  exact ⟨h.1, h.2 (Or.inl (by decide))⟩

namespace GenCore

theorem minString_mem {l : List String} {m : String} (h : minString l = some m) :
    m ∈ l := by
  induction l generalizing m with
  | nil => simp [minString] at h
  | cons x xs ih =>
    simp only [minString] at h
    cases hm : minString xs with
    | none =>
      rw [hm] at h
      rw [Option.some.injEq] at h
      subst h
      exact List.mem_cons_self x xs
    | some mm =>
      rw [hm] at h
      rw [Option.some.injEq] at h
      subst h
      by_cases hle : x ≤ mm
      · rw [if_pos hle]
        exact List.mem_cons_self x xs
      · rw [if_neg hle]
        exact List.mem_cons_of_mem x (ih hm)

theorem noIncoming_spec {edges : List (String × String)} {rem : List String}
    {n : String} (h : noIncoming edges rem n = true) :
    ∀ e ∈ edges, e.2 = n → e.1 ∉ rem := by
  intro e he h2 h1
  have hall := List.all_eq_true.1 h e he
  have hc : rem.contains e.1 = true := List.elem_iff.mpr h1
  simp [h2, hc] at hall
  exact hall h1

theorem lexTopsortAux_mem : ∀ (fuel : Nat) (rem : List String)
    (edges : List (String × String)) (out : List String),
    lexTopsortAux fuel rem edges = some out → ∀ x, (x ∈ out ↔ x ∈ rem) := by
  intro fuel
  induction fuel with
  | zero =>
    intro rem edges out h x
    simp only [lexTopsortAux] at h
    split at h
    next he =>
      rw [List.isEmpty_iff] at he
      subst he
      simp at h
      simp [← h]
    next => simp at h
  | succ n ih =>
    intro rem edges out h x
    simp only [lexTopsortAux] at h
    split at h
    next he =>
      rw [List.isEmpty_iff] at he
      subst he
      simp at h
      simp [← h]
    next he =>
      split at h
      · simp at h
      next nmin hmin =>
        split at h
        · simp at h
        next out2 hrec =>
          rw [Option.some.injEq] at h
          subst h
          have hn_rem : nmin ∈ rem := List.mem_of_mem_filter (minString_mem hmin)
          have ih2 := ih _ edges out2 hrec
          constructor
          · intro hx
            rcases List.mem_cons.1 hx with rfl | hx2
            · exact hn_rem
            · exact List.mem_of_mem_erase ((ih2 x).1 hx2)
          · intro hx
            by_cases hxn : x = nmin
            · simp [hxn]
            · have hxe : x ∈ rem.erase nmin := (List.mem_erase_of_ne hxn).2 hx
              exact List.mem_cons.2 (Or.inr ((ih2 x).2 hxe))

theorem lexTopsortAux_sublist : ∀ (fuel : Nat) (rem : List String)
    (edges : List (String × String)) (out : List String),
    lexTopsortAux fuel rem edges = some out → rem.Nodup →
    ∀ u v, (u, v) ∈ edges → u ∈ rem → v ∈ rem → u ≠ v → List.Sublist [u, v] out := by
  intro fuel
  induction fuel with
  | zero =>
    intro rem edges out h hnd u v he hu hv hne
    simp only [lexTopsortAux] at h
    split at h
    next hemp =>
      rw [List.isEmpty_iff] at hemp
      subst hemp
      simp at hu
    next => simp at h
  | succ n ih =>
    intro rem edges out h hnd u v he hu hv hne
    simp only [lexTopsortAux] at h
    split at h
    next hemp =>
      rw [List.isEmpty_iff] at hemp
      subst hemp
      simp at hu
    next hemp =>
      split at h
      · simp at h
      next nmin hmin =>
        split at h
        · simp at h
        next out2 hrec =>
          rw [Option.some.injEq] at h
          subst h
          have hminmem := minString_mem hmin
          have hready : noIncoming edges rem nmin = true := List.of_mem_filter hminmem
          by_cases hveq : v = nmin
          · exact absurd hu (noIncoming_spec hready (u, v) he hveq)
          · by_cases hueq : u = nmin
            · subst hueq
              have hv2 : v ∈ rem.erase u := (List.mem_erase_of_ne hveq).2 hv
              have hvout : v ∈ out2 := (lexTopsortAux_mem n _ edges out2 hrec v).2 hv2
              exact List.Sublist.cons₂ u (List.singleton_sublist.2 hvout)
            · have hu2 : u ∈ rem.erase nmin := (List.mem_erase_of_ne hueq).2 hu
              have hv2 : v ∈ rem.erase nmin := (List.mem_erase_of_ne hveq).2 hv
              exact List.Sublist.cons nmin
                (ih _ edges out2 hrec (hnd.erase nmin) u v he hu2 hv2 hne)

theorem nodeEdges_spec (keys : List String) (nid : String) :
    ∀ (inputs : List (String × NodeInput)) (es : List (String × String)),
    nodeEdges keys nid inputs = Except.ok es →
    ∀ p ∈ es, p.1 ∈ keys ∧ p.2 = nid := by
  intro inputs
  induction inputs with
  | nil =>
    intro es h p hp
    simp only [nodeEdges] at h
    rw [Except.ok.injEq] at h
    subst h
    simp at hp
  | cons kv rest ih =>
    intro es h p hp
    obtain ⟨nm, inp⟩ := kv
    cases inp with
    | const =>
      simp only [nodeEdges] at h
      exact ih es h p hp
    | arg key name =>
      simp only [nodeEdges] at h
      split at h
      next hkey =>
        cases hrec : nodeEdges keys nid rest with
        | error e => rw [hrec] at h; simp at h
        | ok es2 =>
          rw [hrec] at h
          simp at h
          subst h
          rcases List.mem_cons.1 hp with rfl | hp2
          · exact ⟨hkey, rfl⟩
          · exact ih es2 hrec p hp2
      next => simp at h

theorem allEdges_spec (keys : List String) :
    ∀ (nodes : List (String × CompNode)) (es : List (String × String)),
    allEdges keys nodes = Except.ok es →
    ∀ p ∈ es, p.1 ∈ keys ∧ p.2 ∈ nodes.map Prod.fst := by
  intro nodes
  induction nodes with
  | nil =>
    intro es h p hp
    simp only [allEdges] at h
    rw [Except.ok.injEq] at h
    subst h
    simp at hp
  | cons node rest ih =>
    intro es h p hp
    obtain ⟨nid, n⟩ := node
    simp only [allEdges] at h
    cases h1 : nodeEdges keys nid n.inputs with
    | error e => rw [h1] at h; simp at h
    | ok es1 =>
      rw [h1] at h
      cases h2 : allEdges keys rest with
      | error e => rw [h2] at h; simp at h
      | ok es2 =>
        rw [h2] at h
        simp at h
        subst h
        rcases List.mem_append.1 hp with hp1 | hp2
        · obtain ⟨hk, hn⟩ := nodeEdges_spec keys nid n.inputs es1 h1 p hp1
          exact ⟨hk, by simp [hn]⟩
        · obtain ⟨hk, hn⟩ := ih es2 h2 p hp2
          exact ⟨hk, by simp [hn]⟩

theorem lookup_mem_pair {β : Type} {k : String} {l : List (String × β)} {v : β}
    (h : l.lookup k = some v) : (k, v) ∈ l := by
  induction l with
  | nil => simp [List.lookup] at h
  | cons kv t ih =>
    obtain ⟨k1, v1⟩ := kv
    by_cases hk : k = k1
    · subst hk
      simp [List.lookup] at h
      simp [h]
    · have hbeq : (k == k1) = false := by simp [hk]
      simp [List.lookup, hbeq] at h
      exact List.mem_cons_of_mem _ (ih h)

theorem upsert_keys (l : List (String × CompNode)) (k : String) (v : CompNode) :
    (upsert l k v).map Prod.fst =
      if k ∈ l.map Prod.fst then l.map Prod.fst else l.map Prod.fst ++ [k] := by
  unfold upsert
  split
  next hmem =>
    rw [List.map_map]
    apply List.map_congr_left
    intro kv _
    by_cases hk : kv.1 = k
    · simp [hk]
    · simp [hk]
  next hmem =>
    simp

theorem nodup_after_upsert (l : List (String × CompNode)) (k : String) (v : CompNode)
    (h : (l.map Prod.fst).Nodup) : ((upsert l k v).map Prod.fst).Nodup := by
  rw [upsert_keys]
  split
  · exact h
  next hmem =>
    rw [List.nodup_append]
    refine ⟨h, List.nodup_singleton k, ?_⟩
    intro a ha hak
    rw [List.mem_singleton] at hak
    exact hmem (hak ▸ ha)

theorem foldl_upsert_nodup (ts : List CompNode) :
    ∀ (acc : List (String × CompNode)), (acc.map Prod.fst).Nodup →
    ((ts.foldl (fun acc t => upsert acc t.hash t) acc).map Prod.fst).Nodup := by
  induction ts with
  | nil => intro acc h; exact h
  | cons t ts ih =>
    intro acc h
    exact ih _ (nodup_after_upsert _ _ _ h)

theorem buildNodes_keys_nodup (g : Generator) :
    ((buildNodes g).map Prod.fst).Nodup := by
  unfold buildNodes
  exact foldl_upsert_nodup _ _ (foldl_upsert_nodup _ _ (by simp))

end GenCore

/-- C4 counterexample: build the graph of a fresh generator (it gets
cached), `add_node` a transform `t`, and build again: the cached graph
is returned unchanged, it does not contain `t`, and the topological
order afterwards is still `["e"]` — `add_node` does not invalidate the
cache, contradicting the claim. -/
theorem c4_add_node_cache_counterexample :
    GenCore._computational_graph GenCore.c4_gen =
      Except.ok (GenCore.c4_gen1, GenCore.c4_gr) ∧
    GenCore.add_node GenCore.c4_gen1 GenCore.c4_t = Except.ok GenCore.c4_gen2 ∧
    GenCore.c4_t ∈ GenCore.c4_gen2.transforms ∧
    GenCore._computational_graph GenCore.c4_gen2 =
      Except.ok (GenCore.c4_gen2, GenCore.c4_gr) ∧
    GenCore._sort_graph GenCore.c4_gen2 = Except.ok (GenCore.c4_gen2, ["e"]) ∧
    "t" ∉ GenCore.c4_gr.nodes.map Prod.fst := by
  decide

/-- C4 amended: the computational graph is memoized after its first
build (`_graph` is populated), and `add_node` of a transform appends
the node but leaves the `_graph` cache untouched, so a generator whose
graph was already built keeps returning the stale cached graph. -/
theorem c4_amended_memoization (g : GenCore.Generator) (t : GenCore.CompNode)
    (ht : t.kind = GenCore.NodeKind.transform) :
    (∀ g2, GenCore.add_node g t = Except.ok g2 →
      g2.graphCache = g.graphCache ∧ g2.transforms = g.transforms ++ [t]) ∧
    (∀ gr, g.graphCache = some gr →
      GenCore._computational_graph g = Except.ok (g, gr)) ∧
    (g.graphCache = none →
      ∀ g2 gr, GenCore._computational_graph g = Except.ok (g2, gr) →
        g2.graphCache = some gr) := by
  refine ⟨?_, ?_, ?_⟩
  · intro g2 h
    simp [GenCore.add_node, ht] at h
    rw [← h]
    exact ⟨rfl, rfl⟩
  · intro gr hgr
    simp [GenCore._computational_graph, hgr]
  · intro hnone g2 gr h
    unfold GenCore._computational_graph at h
    split at h
    next gr0 hsome =>
      rw [hnone] at hsome
      cases hsome
    next =>
      simp only [] at h
      split at h
      · simp at h
      next E hed =>
        rw [Except.ok.injEq, Prod.mk.injEq] at h
        rw [← h.1, ← h.2]

/-- Witness for the amended C4 theorem at the concrete generator. -/
theorem c4_amended_memoization_witness :
    (GenCore.c4_gen2.graphCache = GenCore.c4_gen1.graphCache ∧
      GenCore.c4_gen2.transforms = GenCore.c4_gen1.transforms ++ [GenCore.c4_t]) ∧
    GenCore._computational_graph GenCore.c4_gen1 =
      Except.ok (GenCore.c4_gen1, GenCore.c4_gr) :=
  ⟨(c4_amended_memoization GenCore.c4_gen1 GenCore.c4_t rfl).1
      GenCore.c4_gen2 (by decide),
    (c4_amended_memoization GenCore.c4_gen1 GenCore.c4_t rfl).2.1
      GenCore.c4_gr (by decide)⟩

/-- C7: for a generator graph built fresh (no cache) from nodes with an
extract that no edge enters and whose only `Extract`-kind node is the
extract itself, the evaluation order `_sort_graph` returns starts with
the extract node, and every node appears after every node whose output
it consumes (for every graph edge `(u, v)`, `u` precedes `v` in the
order).  The order is the lexicographic topological sort embedded in
`lexicographical_topological_sort`, a pure function of the node hashes
and edges, hence identical across runs for the same hashes. -/
theorem c7_sort_topological (g g2 : GenCore.Generator) (gr : GenCore.DiGraph)
    (order : List String)
    (hcache : g.graphCache = none)
    (hgr : GenCore._computational_graph g = Except.ok (g2, gr))
    (hsort : GenCore._sort_graph g = Except.ok (g2, order))
    (hnoext : ∀ e ∈ gr.edges, e.2 ≠ g.extract.hash)
    (hkind : ∀ kv ∈ gr.nodes, kv.2.kind = GenCore.NodeKind.extract →
      kv.1 = g.extract.hash) :
    order.head? = some g.extract.hash ∧
    ∀ u v, (u, v) ∈ gr.edges → u ≠ v → List.Sublist [u, v] order := by
  have hnodes : gr.nodes = GenCore.buildNodes g ∧
      GenCore.allEdges ((GenCore.buildNodes g).map Prod.fst) (GenCore.buildNodes g) =
        Except.ok gr.edges := by
    unfold GenCore._computational_graph at hgr
    split at hgr
    next gr0 hsome =>
      rw [hcache] at hsome
      cases hsome
    next =>
      simp only [] at hgr
      split at hgr
      · simp at hgr
      next E hed =>
        rw [Except.ok.injEq, Prod.mk.injEq] at hgr
        rw [← hgr.2]
        exact ⟨rfl, hed⟩
  have keysEq : gr.nodes.map Prod.fst = (GenCore.buildNodes g).map Prod.fst := by
    rw [hnodes.1]
  have hnodup : (gr.nodes.map Prod.fst).Nodup := by
    rw [keysEq]
    exact GenCore.buildNodes_keys_nodup g
  unfold GenCore._sort_graph at hsort
  rw [hgr] at hsort
  simp only [] at hsort
  split at hsort
  · simp at hsort
  next sorted hts =>
    rw [Except.ok.injEq, Prod.mk.injEq] at hsort
    rw [← hsort.2]
    have hts2 : GenCore.lexTopsortAux (gr.nodes.map Prod.fst).length
        (gr.nodes.map Prod.fst) gr.edges = some sorted := hts
    have smem := GenCore.lexTopsortAux_mem _ _ _ _ hts2
    refine ⟨rfl, ?_⟩
    intro u v he hne
    obtain ⟨huk, hvk⟩ := GenCore.allEdges_spec _ _ _ hnodes.2 (u, v) he
    have humem : u ∈ gr.nodes.map Prod.fst := by
      rw [keysEq]
      exact huk
    have hvmem : v ∈ gr.nodes.map Prod.fst := by
      rw [keysEq]
      exact hvk
    have hsub : List.Sublist [u, v] sorted :=
      GenCore.lexTopsortAux_sublist _ _ _ _ hts2 hnodup u v he humem hvmem hne
    have hvne : v ≠ g.extract.hash := hnoext (u, v) he
    have hpv : GenCore.notExtract gr v = true := by
      obtain ⟨data, hdata⟩ := EntityCore.lookup_mem v gr.nodes hvmem
      have hpair := GenCore.lookup_mem_pair hdata
      have hkne : data.kind ≠ GenCore.NodeKind.extract := fun hk =>
        hvne (hkind (v, data) hpair hk)
      unfold GenCore.notExtract
      rw [hdata]
      simp [hkne]
    by_cases hue : u = g.extract.hash
    · subst hue
      have hvf : v ∈ sorted.filter (GenCore.notExtract gr) :=
        List.mem_filter.2 ⟨(smem v).2 hvmem, hpv⟩
      exact List.Sublist.cons₂ _ (List.singleton_sublist.2 hvf)
    · have hpu : GenCore.notExtract gr u = true := by
        obtain ⟨data, hdata⟩ := EntityCore.lookup_mem u gr.nodes humem
        have hpair := GenCore.lookup_mem_pair hdata
        have hkne : data.kind ≠ GenCore.NodeKind.extract := fun hk =>
          hue (hkind (u, data) hpair hk)
        unfold GenCore.notExtract
        rw [hdata]
        simp [hkne]
      have hsubf := hsub.filter (GenCore.notExtract gr)
      have hfuv : [u, v].filter (GenCore.notExtract gr) = [u, v] := by
        simp [hpu, hpv]
      rw [hfuv] at hsubf
      exact List.Sublist.cons _ hsubf

/-- Witness for the C7 theorem at the concrete generator with extract
`e`, transform `t` (consuming `e`) and load `l` (consuming `t`): the
order is `["e", "t", "l"]`, the extract is first and both edges are
respected. -/
theorem c7_sort_topological_witness :
    (["e", "t", "l"] : List String).head? = some GenCore.c7_gen.extract.hash ∧
    List.Sublist ["t", "l"] ["e", "t", "l"] ∧
    List.Sublist ["e", "t"] ["e", "t", "l"] := by
  have h := c7_sort_topological GenCore.c7_gen
    { name := "g", extract := GenCore.c4_ext, transforms := [GenCore.c7_t],
      loads := [GenCore.c7_l], graphCache := some GenCore.c7_gr }
    GenCore.c7_gr ["e", "t", "l"] rfl (by decide) (by decide) (by decide) (by decide)
  exact ⟨h.1, h.2 "t" "l" (by decide) (by decide), h.2 "e" "t" (by decide) (by decide)⟩

namespace MiscSer

theorem strLtB_irrefl : ∀ as : List Char, strLtB as as = false
  | [] => rfl
  | a :: as => by
    simp only [strLtB]
    rw [if_neg (by omega), if_pos trivial]
    exact strLtB_irrefl as

theorem strLtB_asymm : ∀ as bs : List Char,
    strLtB as bs = true → strLtB bs as = false
  | _, [], h => by
    simp [strLtB] at h
  | [], _ :: _, _ => rfl
  | a :: as, b :: bs, h => by
    simp only [strLtB] at h ⊢
    by_cases hab : a.toNat < b.toNat
    · rw [if_neg (by omega), if_neg (by omega)]
    · rw [if_neg hab] at h
      by_cases heq : a.toNat = b.toNat
      · rw [if_pos heq] at h
        rw [if_neg (by omega), if_pos (by omega)]
        exact strLtB_asymm as bs h
      · rw [if_neg heq] at h
        cases h

theorem pyStrLe_of_pyStrLt {a b : String} (h : pyStrLt a b = true) :
    pyStrLe a b = true := by
  unfold pyStrLt at h
  unfold pyStrLe pyStrLt
  rw [strLtB_asymm a.toList b.toList h]
  rfl

theorem pyStrLt_ne {a b : String} (h : pyStrLt a b = true) : b ≠ a := by
  intro he
  subst he
  unfold pyStrLt at h
  rw [strLtB_irrefl] at h
  cases h

theorem keys_toDictPairs (h : JVal → String) (b : Bool) :
    ∀ kvs : PyPairs, JPairs.keys (to_dictPairs h b kvs) = PyPairs.keys kvs
  | PyPairs.nil => rfl
  | PyPairs.cons k v kvs => by
    simp only [to_dictPairs, JPairs.keys, PyPairs.keys]
    rw [keys_toDictPairs h b kvs]

theorem keys_canonPairs :
    ∀ kvs : JPairs, JPairs.keys (canonPairs kvs) = JPairs.keys kvs
  | JPairs.nil => rfl
  | JPairs.cons k v kvs => by
    simp only [canonPairs, JPairs.keys]
    rw [keys_canonPairs kvs]

theorem jlookup_none : ∀ (kvs : JPairs) (k : String),
    k ∉ JPairs.keys kvs → JPairs.lookup k kvs = none
  | JPairs.nil, _, _ => rfl
  | JPairs.cons k2 v kvs, k, hmem => by
    simp only [JPairs.keys, List.mem_cons, not_or] at hmem
    simp only [JPairs.lookup]
    rw [if_neg hmem.1]
    exact jlookup_none kvs k hmem.2

theorem pytypeOf_no_pytype (kvs : JPairs) (hmem : "_pytype" ∉ JPairs.keys kvs) :
    pytypeOf kvs = "" := by
  unfold pytypeOf
  rw [jlookup_none kvs _ hmem]

mutual
theorem to_dictJ_id : ∀ j : JVal, to_dictJ j = j
  | JVal.jint _ => rfl
  | JVal.jbool _ => rfl
  | JVal.jstr _ => rfl
  | JVal.jnull => rfl
  | JVal.jlist xs => by
    simp only [to_dictJ]
    rw [to_dictJList_id xs]
  | JVal.jdict kvs => by
    simp only [to_dictJ]
    rw [to_dictJPairs_id kvs]
theorem to_dictJList_id : ∀ xs : JList, to_dictJList xs = xs
  | JList.nil => rfl
  | JList.cons x xs => by
    simp only [to_dictJList]
    rw [to_dictJ_id x, to_dictJList_id xs]
theorem to_dictJPairs_id : ∀ kvs : JPairs, to_dictJPairs kvs = kvs
  | JPairs.nil => rfl
  | JPairs.cons k v kvs => by
    simp only [to_dictJPairs]
    rw [to_dictJ_id v, to_dictJPairs_id kvs]
end

theorem sortJPairs_eq_self : ∀ kvs : JPairs,
    strictChain (JPairs.keys kvs) = true → sortJPairs kvs = kvs
  | JPairs.nil, _ => rfl
  | JPairs.cons k v JPairs.nil, _ => rfl
  | JPairs.cons k v (JPairs.cons k2 v2 rest), hchain => by
    simp only [JPairs.keys, strictChain, Bool.and_eq_true] at hchain
    have htail : sortJPairs (JPairs.cons k2 v2 rest) = JPairs.cons k2 v2 rest :=
      sortJPairs_eq_self (JPairs.cons k2 v2 rest) hchain.2
    simp only [sortJPairs] at htail ⊢
    rw [htail]
    simp only [insertJPair]
    rw [if_pos (pyStrLe_of_pyStrLt hchain.1)]

theorem fieldKeysOk_mem : ∀ kvs : PyPairs, fieldKeysOk kvs = true →
    ∀ k ∈ PyPairs.keys kvs, pyStrLt "_uid" k = true
  | PyPairs.nil, _, k, hk => by
    simp [PyPairs.keys] at hk
  | PyPairs.cons k2 v kvs, hok, k, hk => by
    simp only [fieldKeysOk, Bool.and_eq_true] at hok
    simp only [PyPairs.keys, List.mem_cons] at hk
    rcases hk with rfl | hk
    · exact hok.1
    · exact fieldKeysOk_mem kvs hok.2 k hk

theorem from_dictObjPairs_eq : ∀ kvs : JPairs,
    (∀ k ∈ JPairs.keys kvs, pyStrLt "_uid" k = true) →
    from_dictObjPairs kvs = from_dictPairs kvs
  | JPairs.nil, _ => rfl
  | JPairs.cons k v kvs, hok => by
    have hk : pyStrLt "_uid" k = true := hok k (by simp [JPairs.keys])
    have hne1 : ¬ k = "_pytype" := by
      intro he
      subst he
      exact absurd hk (by decide)
    have hne2 : ¬ k = "_uid" := fun he => pyStrLt_ne hk he
    simp only [from_dictObjPairs, from_dictPairs]
    rw [if_neg (by simp [hne1, hne2])]
    rw [from_dictObjPairs_eq kvs (fun k2 hk2 => hok k2 (by simp [JPairs.keys, hk2]))]

theorem chain_meta_cons (l : List String) (hchain : strictChain l = true)
    (hok : ∀ k ∈ l, pyStrLt "_uid" k = true) :
    strictChain ("_pytype" :: "_uid" :: l) = true := by
  cases l with
  | nil => rfl
  | cons k1 rest =>
    have h1 : pyStrLt "_uid" k1 = true := hok k1 (by simp)
    simp only [strictChain, Bool.and_eq_true]
    exact ⟨by decide, h1, by
      have := hchain
      simpa [strictChain] using this⟩

theorem contains_false_not_mem {l : List String} {a : String}
    (h : l.contains a = false) : a ∉ l := by
  intro hmem
  unfold List.contains at h
  rw [List.elem_iff.mpr hmem] at h
  cases h

end MiscSer

namespace MiscSer

theorem pytypeOf_obj (p : String) (rest : JPairs) :
    pytypeOf (JPairs.cons "_pytype" (JVal.jstr p) rest) = p := rfl

theorem to_dict_obj (h : JVal → String) (p : String) (fields : PyPairs) :
    to_dict h false (PyVal.vobj p fields) =
      JVal.jdict (JPairs.cons "_pytype" (JVal.jstr p)
        (JPairs.cons "_uid" (JVal.jstr (h (canon (JVal.jdict (JPairs.cons "_pytype"
          (JVal.jstr p) (to_dictJPairs (sortJPairs (to_dictPairs h false fields))))))))
          (sortJPairs (to_dictPairs h false fields)))) := rfl

theorem from_dictObjPairs_meta (v1 v2 : JVal) (rest : JPairs) :
    from_dictObjPairs (JPairs.cons "_pytype" v1 (JPairs.cons "_uid" v2 rest)) =
      from_dictObjPairs rest := by
  simp only [from_dictObjPairs]
  rw [if_pos (Or.inl trivial), if_pos (Or.inr trivial)]

mutual

theorem roundtrip (h : JVal → String) : ∀ (x : PyVal), WF x = true →
    ∃ y, from_dict (to_dict h false x) = Except.ok y ∧
      to_dict h false y = to_dict h false x
  | PyVal.vint n, _ => ⟨PyVal.vint n, rfl, rfl⟩
  | PyVal.vbool b, _ => ⟨PyVal.vbool b, rfl, rfl⟩
  | PyVal.vstr s, _ => ⟨PyVal.vstr s, rfl, rfl⟩
  | PyVal.vnone, _ => ⟨PyVal.vnone, rfl, rfl⟩
  | PyVal.vlist xs, hwf => by
    simp only [WF] at hwf
    obtain ⟨ys, h1, h2⟩ := roundtripList h xs hwf
    refine ⟨PyVal.vlist ys, ?_, ?_⟩
    · simp only [to_dict, from_dict, h1]
    · simp only [to_dict, h2]
  | PyVal.vtuple xs, hwf => by
    simp only [WF] at hwf
    obtain ⟨ys, h1, h2⟩ := roundtripList h xs hwf
    refine ⟨PyVal.vdict (PyPairs.cons "_pytype" (PyVal.vstr "builtins.tuple")
      (PyPairs.cons "_value" (PyVal.vlist ys) PyPairs.nil)), ?_, ?_⟩
    · simp only [to_dict, from_dict, pytypeOf_obj, JPairs.keys]
      rw [if_neg (by decide), if_neg (by decide), if_neg (by decide),
        if_neg (by decide)]
      simp only [from_dictPairs, from_dict, h1]
    · simp only [to_dict, to_dictPairs, h2]
  | PyVal.vset xs, hwf => by
    simp only [WF] at hwf
    obtain ⟨ys, h1, h2⟩ := roundtripList h xs hwf
    refine ⟨PyVal.vdict (PyPairs.cons "_pytype" (PyVal.vstr "builtins.set")
      (PyPairs.cons "_value" (PyVal.vlist ys) PyPairs.nil)), ?_, ?_⟩
    · simp only [to_dict, from_dict, pytypeOf_obj, JPairs.keys]
      rw [if_neg (by decide), if_neg (by decide), if_neg (by decide),
        if_neg (by decide)]
      simp only [from_dictPairs, from_dict, h1]
    · simp only [to_dict, to_dictPairs, h2]
  | PyVal.vdict kvs, hwf => by
    simp only [WF, Bool.and_eq_true, Bool.not_eq_true'] at hwf
    obtain ⟨⟨⟨hchain, hnp⟩, hnpt⟩, hwfp⟩ := hwf
    obtain ⟨yps, h1, h2, h3⟩ := roundtripPairs h kvs hwfp
    have hkeys := keys_toDictPairs h false kvs
    have hpt : pytypeOf (to_dictPairs h false kvs) = "" := by
      apply pytypeOf_no_pytype
      rw [hkeys]
      exact contains_false_not_mem hnp
    refine ⟨PyVal.vdict yps, ?_, ?_⟩
    · simp only [to_dict, from_dict, hpt, hkeys]
      rw [if_neg (by decide), if_neg (by decide), if_neg (by decide),
        if_neg (by rw [hnpt]; simp)]
      simp only [h1]
    · simp only [to_dict, h2]
  | PyVal.vobj p fields, hwf => by
    simp only [WF, Bool.and_eq_true] at hwf
    obtain ⟨⟨⟨hc, hchain⟩, hok⟩, hwfp⟩ := hwf
    obtain ⟨yps, h1, h2, h3⟩ := roundtripPairs h fields hwfp
    have hkeysf := keys_toDictPairs h false fields
    have hsorted : strictChain (JPairs.keys (to_dictPairs h false fields)) = true := by
      rw [hkeysf]
      exact hchain
    have hdata := sortJPairs_eq_self _ hsorted
    have hokj : ∀ k ∈ JPairs.keys (to_dictPairs h false fields),
        pyStrLt "_uid" k = true := by
      rw [hkeysf]
      exact fieldKeysOk_mem fields hok
    have hkeysy := keys_toDictPairs h false yps
    have hsortedy : strictChain (JPairs.keys (to_dictPairs h false yps)) = true := by
      rw [hkeysy, h3]
      exact hchain
    have hdatay := sortJPairs_eq_self _ hsortedy
    refine ⟨PyVal.vobj p yps, ?_, ?_⟩
    · rw [to_dict_obj, hdata, to_dictJPairs_id]
      simp only [from_dict, pytypeOf_obj]
      rw [if_pos hc]
      rw [from_dictObjPairs_meta, from_dictObjPairs_eq _ hokj, h1]
    · rw [to_dict_obj, to_dict_obj, hdata, hdatay, to_dictJPairs_id,
        to_dictJPairs_id, h2]

theorem roundtripList (h : JVal → String) : ∀ (xs : PyList), WFList xs = true →
    ∃ ys, from_dictList (to_dictList h false xs) = Except.ok ys ∧
      to_dictList h false ys = to_dictList h false xs
  | PyList.nil, _ => ⟨PyList.nil, rfl, rfl⟩
  | PyList.cons x xs, hwf => by
    simp only [WFList, Bool.and_eq_true] at hwf
    obtain ⟨y, hy1, hy2⟩ := roundtrip h x hwf.1
    obtain ⟨ys, h1, h2⟩ := roundtripList h xs hwf.2
    refine ⟨PyList.cons y ys, ?_, ?_⟩
    · simp only [to_dictList, from_dictList, hy1, h1]
    · simp only [to_dictList, hy2, h2]

theorem roundtripPairs (h : JVal → String) : ∀ (kvs : PyPairs), WFPairs kvs = true →
    ∃ yps, from_dictPairs (to_dictPairs h false kvs) = Except.ok yps ∧
      to_dictPairs h false yps = to_dictPairs h false kvs ∧
      PyPairs.keys yps = PyPairs.keys kvs
  | PyPairs.nil, _ => ⟨PyPairs.nil, rfl, rfl, rfl⟩
  | PyPairs.cons k v kvs, hwf => by
    simp only [WFPairs, Bool.and_eq_true] at hwf
    obtain ⟨y, hy1, hy2⟩ := roundtrip h v hwf.1
    obtain ⟨yps, h1, h2, h3⟩ := roundtripPairs h kvs hwf.2
    refine ⟨PyPairs.cons k y yps, ?_, ?_, ?_⟩
    · simp only [to_dictPairs, from_dictPairs, hy1, h1]
    · simp only [to_dictPairs, hy2, h2]
    · simp only [PyPairs.keys, h3]

end

end MiscSer

namespace MiscSer

mutual

theorem canon_toDict (h : JVal → String) : ∀ (x : PyVal), WF x = true →
    canon (to_dict h false x) = to_dict h false x
  | PyVal.vint _, _ => rfl
  | PyVal.vbool _, _ => rfl
  | PyVal.vstr _, _ => rfl
  | PyVal.vnone, _ => rfl
  | PyVal.vlist xs, hwf => by
    simp only [WF] at hwf
    simp only [to_dict, canon]
    rw [canon_toDictList h xs hwf]
  | PyVal.vtuple xs, hwf => by
    simp only [WF] at hwf
    simp only [to_dict, canon, canonPairs, canonList]
    rw [canon_toDictList h xs hwf]
    refine congrArg JVal.jdict ?_
    apply sortJPairs_eq_self
    simp only [JPairs.keys]
    decide
  | PyVal.vset xs, hwf => by
    simp only [WF] at hwf
    simp only [to_dict, canon, canonPairs, canonList]
    rw [canon_toDictList h xs hwf]
    refine congrArg JVal.jdict ?_
    apply sortJPairs_eq_self
    simp only [JPairs.keys]
    decide
  | PyVal.vdict kvs, hwf => by
    simp only [WF, Bool.and_eq_true, Bool.not_eq_true'] at hwf
    obtain ⟨⟨⟨hchain, _⟩, _⟩, hwfp⟩ := hwf
    simp only [to_dict, canon]
    rw [canon_toDictPairs h kvs hwfp]
    rw [sortJPairs_eq_self _ (by rw [keys_toDictPairs]; exact hchain)]
  | PyVal.vobj p fields, hwf => by
    simp only [WF, Bool.and_eq_true] at hwf
    obtain ⟨⟨⟨_, hchain⟩, hok⟩, hwfp⟩ := hwf
    have hkeysf := keys_toDictPairs h false fields
    have hsorted : strictChain (JPairs.keys (to_dictPairs h false fields)) = true := by
      rw [hkeysf]
      exact hchain
    have hdata := sortJPairs_eq_self _ hsorted
    rw [to_dict_obj, hdata, to_dictJPairs_id]
    simp only [canon, canonPairs]
    rw [canon_toDictPairs h fields hwfp]
    rw [sortJPairs_eq_self]
    simp only [JPairs.keys]
    rw [keys_toDictPairs]
    exact chain_meta_cons _ hchain (fieldKeysOk_mem fields hok)

theorem canon_toDictList (h : JVal → String) : ∀ (xs : PyList), WFList xs = true →
    canonList (to_dictList h false xs) = to_dictList h false xs
  | PyList.nil, _ => rfl
  | PyList.cons x xs, hwf => by
    simp only [WFList, Bool.and_eq_true] at hwf
    simp only [to_dictList, canonList]
    rw [canon_toDict h x hwf.1, canon_toDictList h xs hwf.2]

theorem canon_toDictPairs (h : JVal → String) : ∀ (kvs : PyPairs), WFPairs kvs = true →
    canonPairs (to_dictPairs h false kvs) = to_dictPairs h false kvs
  | PyPairs.nil, _ => rfl
  | PyPairs.cons k v kvs, hwf => by
    simp only [WFPairs, Bool.and_eq_true] at hwf
    simp only [to_dictPairs, canonPairs]
    rw [canon_toDict h v hwf.1, canon_toDictPairs h kvs hwf.2]

end

end MiscSer

/-- C8: serializing a well-formed DBgen object to its canonical JSON
form (`dumps(to_dict(x), sort_keys=True)`, whose parsed content is
`canon (to_dict h false x)`) and reconstructing it with `from_dict`
yields an object `y` whose `Base.hash` — the `_uid` entry of its own
serialization, `hash_` applied to the canonical dump of the hashdict,
modelled by an arbitrary `h` — equals the hash of the original, for
every choice of `h`. -/
theorem c8_roundtrip_preserves_hash (h : MiscSer.JVal → String) (p : String)
    (fields : MiscSer.PyPairs)
    (hwf : MiscSer.WF (MiscSer.PyVal.vobj p fields) = true) :
    ∃ y u, MiscSer.from_dict (MiscSer.canon
        (MiscSer.to_dict h false (MiscSer.PyVal.vobj p fields))) = Except.ok y ∧
      MiscSer.base_hash h (MiscSer.PyVal.vobj p fields) = some u ∧
      MiscSer.base_hash h y = some u := by
  rw [MiscSer.canon_toDict h _ hwf]
  obtain ⟨y, hfd, htd⟩ := MiscSer.roundtrip h _ hwf
  have hby : MiscSer.base_hash h y = MiscSer.base_hash h (MiscSer.PyVal.vobj p fields) := by
    unfold MiscSer.base_hash
    rw [htd]
  have hbx : ∃ u, MiscSer.base_hash h (MiscSer.PyVal.vobj p fields) = some u :=
    ⟨_, rfl⟩
  obtain ⟨u, hu⟩ := hbx
  exact ⟨y, u, hfd, hu, by rw [hby, hu]⟩

/-- Witness for the C8 theorem: a concrete two-field object round-trips
with equal hash (for the constantly-`"H"` stand-in hash function the
value is the `_uid` string `"H"`). -/
theorem c8_roundtrip_preserves_hash_witness :
    ∃ y u, MiscSer.from_dict (MiscSer.canon
        (MiscSer.to_dict (fun _ => "H") false MiscSer.c8_obj)) = Except.ok y ∧
      MiscSer.base_hash (fun _ => "H") MiscSer.c8_obj = some u ∧
      MiscSer.base_hash (fun _ => "H") y = some u :=
  c8_roundtrip_preserves_hash (fun _ => "H") "dbgen.core.schema.Obj"
    (MiscSer.PyPairs.cons "desc" (MiscSer.PyVal.vstr "d")
      (MiscSer.PyPairs.cons "name" (MiscSer.PyVal.vstr "tab") MiscSer.PyPairs.nil))
    (by decide)
